import Mathlib

namespace Dispatch

/-! Shallow embedding of the dispatcher in src/dispatcher.ts.

JS maps and plain objects are modelled as association lists over `String`
keys, machine integers and epoch-millisecond timestamps as `Nat`
(truncated subtraction agrees with the JS comparisons used, see the
comments at each use), byte bodies as `List Nat`, and the two handler
variants (stream resolver / webhook URL) as a sum type. -/

/-- Association-list lookup, modelling reads of a JS `Map` or plain object
(`REQUESTS.get(key)`, `QUEUES[name]`, `localStorage[clientId]`). -/
def lookupAssoc {α : Type} : List (String × α) → String → Option α
  | [], _ => none
  | (k', v) :: rest, k => if k' = k then some v else lookupAssoc rest k

/-- Association-list write, modelling `map.set(k, v)` / `obj[k] = v`:
overwrites the binding in place when the key is present, appends otherwise. -/
def setAssoc {α : Type} : List (String × α) → String → α → List (String × α)
  | [], k, v => [(k, v)]
  | (k', v') :: rest, k, v =>
      if k' = k then (k, v) :: rest else (k', v') :: setAssoc rest k v

/-- Association-list delete, modelling `map.delete(k)`.  The table keeps at
most one binding per key, so dropping every binding of `k` coincides with
the JS behaviour on every reachable state. -/
def removeAssoc {α : Type} (l : List (String × α)) (k : String) : List (String × α) :=
  l.filter (fun p => decide (p.1 ≠ k))

/-- Decimal digit character. -/
def digitChar (d : Nat) : Char :=
  if d = 0 then '0' else if d = 1 then '1' else if d = 2 then '2'
  else if d = 3 then '3' else if d = 4 then '4' else if d = 5 then '5'
  else if d = 6 then '6' else if d = 7 then '7' else if d = 8 then '8' else '9'

/-- Little-endian decimal digits of `n` (units digit first), with explicit
fuel so the definition is structural; `fuel > n` always suffices. -/
def digitsGo : Nat → Nat → List Char
  | 0, _ => []
  | fuel + 1, n =>
      if n < 10 then [digitChar n]
      else digitChar (n % 10) :: digitsGo fuel (n / 10)

/-- Decimal rendering of a natural number, as JS `String(n)` produces for the
integer timer values this codebase stores. -/
def natToString (n : Nat) : String :=
  String.mk (digitsGo (n + 1) n).reverse

/-- Accumulating decimal parse of a digit list. -/
def parseDigits (l : List Char) : Nat :=
  l.foldl (fun a c => a * 10 + (c.toNat - 48)) 0

/-- JS `Number(s)` on the string shapes that occur in this codebase: the
empty string is `0`, a pure digit string is its decimal value, and any
other string is `NaN`, modelled as `none` (NaN is falsy and compares false,
exactly how the call sites consume it). -/
def jsNumberL (l : List Char) : Option Nat :=
  if l = [] then some 0
  else if l.all Char.isDigit then some (parseDigits l) else none

/-- JS `Number` lifted to `String`. -/
def jsNumber (s : String) : Option Nat := jsNumberL s.data

/-- The `encodeTimers` of dispatcher.ts: `Object.entries(timers).join()`,
i.e. the entries flattened to alternating `name,value` tokens joined by
commas; the empty map encodes to the empty string. -/
def encodeTimers : List (String × Nat) → String
  | [] => ""
  | [(n, v)] => n ++ "," ++ natToString v
  | (n, v) :: rest => n ++ "," ++ natToString v ++ "," ++ encodeTimers rest

/-- Loop state of `decodeTimers`: the queue name captured so far, the token
being accumulated, and the entries already produced. -/
structure DecState where
  queueName : List Char
  currentStr : List Char
  timers : List (String × Nat)

/-- The entry produced by one `unlockAt && unlockAt > now &&
(timers[queueName] = unlockAt)` line of `decodeTimers`: kept only when the
parsed value is a nonzero number lying in the future (NaN and 0 are falsy). -/
def keptEntry (now : Nat) (qn tok : List Char) : List (String × Nat) :=
  match jsNumberL tok with
  | some v => if v ≠ 0 ∧ now < v then [(String.mk qn, v)] else []
  | none => []

/-- The separator branch of the `decodeTimers` loop, taken on a comma and
once past the end of the string (`!c || c === ','`): the first token becomes
the queue name, the second is parsed and kept only when nonzero and in the
future. -/
def flushTok (now : Nat) (st : DecState) : DecState :=
  if st.queueName = [] then
    { st with queueName := st.currentStr, currentStr := [] }
  else ⟨[], [], st.timers ++ keptEntry now st.queueName st.currentStr⟩

/-- One character step of the `decodeTimers` loop. -/
def decStep (now : Nat) (st : DecState) (c : Char) : DecState :=
  if c = ',' then flushTok now st
  else { st with currentStr := st.currentStr ++ [c] }

/-- The `decodeTimers` of dispatcher.ts: a falsy (empty) input yields the
empty map, otherwise the character loop runs over the string and once more
past its end. -/
def decodeTimers (s : String) (now : Nat) : List (String × Nat) :=
  if s = "" then []
  else (flushTok now (s.data.foldl (decStep now) ⟨[], [], []⟩)).timers

/-- `decodeTimers` applied to a possibly missing `localStorage` entry. -/
def decodeTimersOpt : Option String → Nat → List (String × Nat)
  | none, _ => []
  | some s, now => decodeTimers s now

/-- The 10 s re-dispatch timeout of dispatcher.ts. -/
def TIMEOUT : Nat := 10000

/-- A waiter attached to a pending request: a stream resolver (identified by
a token) or a webhook URL. -/
inductive Handler where
  | stream (id : Nat)
  | webhook (url : String)
deriving DecidableEq

/-- The `PendingRequest` record of dispatcher.ts. -/
structure PendingReq where
  key : String
  href : String
  headers : Option (List (String × String))
  createdAt : Nat
  startedAt : Option Nat
  queue : String
  handlers : List Handler
  attempts : Nat
deriving DecidableEq

/-- The scheduler's skip test `now - (req.startedAt as number) < TIMEOUT`.
An unset `startedAt` gives `NaN` in JS, whose comparison is false, so the
request is not skipped; for a set `startedAt ≤ now` Nat subtraction agrees
with JS, and for `startedAt > now` both sides skip (negative < TIMEOUT in
JS, 0 < TIMEOUT here). -/
def skipTime (now : Nat) (r : PendingReq) : Bool :=
  match r.startedAt with
  | none => false
  | some t => decide (now - t < TIMEOUT)

/-- Truthiness of `timers[req.queue]` for a decoded timers map: present and
nonzero. -/
def truthyLookup (timers : List (String × Nat)) (q : String) : Bool :=
  match lookupAssoc timers q with
  | some v => decide (v ≠ 0)
  | none => false

/-- One iteration of the scheduler's scan over `REQUESTS.values()`: skip a
request still being handled or whose queue is cooling down for this client,
otherwise count it and keep the oldest (`createdAt`-smallest, later entry
winning ties exactly as the JS comparison does). -/
def scanStep (now : Nat) (timers : List (String × Nat))
    (acc : Option PendingReq × Nat) (r : PendingReq) : Option PendingReq × Nat :=
  if skipTime now r then acc
  else if truthyLookup timers r.queue then acc
  else
    match acc.1 with
    | none => (some r, acc.2 + 1)
    | some o => if o.createdAt < r.createdAt then (some o, acc.2 + 1) else (some r, acc.2 + 1)

/-- Result of `getNextInQueue`: the selected request (if any), the count of
eligible requests observed, and the cooldown store after the call. -/
structure NextResult where
  next : Option PendingReq
  count : Nat
  store : List (String × String)
deriving DecidableEq

/-- The `getNextInQueue` of dispatcher.ts.  `store` models `localStorage`,
`reqs` the values of `REQUESTS`, `delayOf` the `QUEUES[name].delay` table;
the two `Date.now()` reads of the synchronous source body are one `now`. -/
def getNextInQueue (store : List (String × String)) (clientId : String)
    (reqs : List PendingReq) (delayOf : String → Nat) (now : Nat) : NextResult :=
  let timers := decodeTimersOpt (lookupAssoc store clientId) now
  match reqs.foldl (scanStep now timers) (none, 0) with
  | (none, _) => ⟨none, 0, store⟩
  | (some o, count) =>
      ⟨some o, count,
       setAssoc store clientId
         (encodeTimers (setAssoc timers o.queue (now + delayOf o.queue)))⟩

/-- Eligibility as the spec states it: never dispatched or timed out, and no
unexpired cooldown entry for the request's queue. -/
def isEligible (now : Nat) (timers : List (String × Nat)) (r : PendingReq) : Bool :=
  !skipTime now r && (lookupAssoc timers r.queue).isNone

/-- The `Client` record of dispatcher.ts. -/
structure Client where
  id : String
  activeAt : Nat
  started : Nat
  finished : Nat
deriving DecidableEq

/-- JS `a || b || ...` over nullable strings: the first value that is
neither null nor the empty string. -/
def firstNonEmpty : List (Option String) → Option String
  | [] => none
  | none :: rest => firstNonEmpty rest
  | some s :: rest => if s = "" then firstNonEmpty rest else some s

/-- The client-id chain of `getClient` in dispatcher.ts.  The last header
name is spelled `x-forwared-for` exactly as the source spells it. -/
def getClientId (hdrs : String → Option String) : Option String :=
  firstNonEmpty
    [hdrs "x-client-id", hdrs "true-client-ip",
     hdrs "cf-connecting-ip", hdrs "x-forwared-for"]

/-- `getClient`'s bookkeeping: refresh `activeAt` or create the record. -/
def touchClient (clients : List (String × Client)) (cid : String) (now : Nat) :
    List (String × Client) :=
  match lookupAssoc clients cid with
  | some c => setAssoc clients cid { c with activeAt := now }
  | none => setAssoc clients cid ⟨cid, now, 0, 0⟩

/-- `client.started++` after a successful dispatch. -/
def bumpStarted (clients : List (String × Client)) (cid : String) :
    List (String × Client) :=
  match lookupAssoc clients cid with
  | some c => setAssoc clients cid { c with started := c.started + 1 }
  | none => clients

/-- `getClient` followed by `client && client.finished++` on the delivery
path: a missing client id leaves the table untouched. -/
def bumpFinished (clients : List (String × Client)) (cid : Option String) (now : Nat) :
    List (String × Client) :=
  match cid with
  | none => clients
  | some id =>
      match lookupAssoc clients id with
      | some c => setAssoc clients id { c with activeAt := now, finished := c.finished + 1 }
      | none => setAssoc clients id ⟨id, now, 0, 1⟩

/-- A cache file: its mtime and its bytes. -/
structure CacheEntry where
  mtime : Nat
  body : List Nat
deriving DecidableEq

/-- The dispatcher state touched by enqueue and delivery: the request table,
the on-disk cache, and the client table. -/
structure SrvState where
  requests : List (String × PendingReq)
  cache : List (String × CacheEntry)
  clients : List (String × Client)
deriving DecidableEq

/-- The response of `POST /`: a cache hit streamed with `x-from-cache`, a
`202` with `x-request-key` when a webhook reply was supplied, or a streaming
response with `x-request-key`. -/
inductive PostResp where
  | cached (key : String)
  | accepted (key : String)
  | streaming (key : String)
deriving DecidableEq

/-- The freshness decision of `POST /`: serve when no or zero `expire` was
supplied (JS `!expire`), else serve iff `mtime + expire > now`. -/
def serveFromCache (expire : Option Nat) (mtime now : Nat) : Bool :=
  match expire with
  | none => true
  | some e => if e = 0 then true else decide (mtime + e > now)

/-- The `buildResponse` of dispatcher.ts: attach one handler (the webhook
URL when `reply` was supplied, a fresh stream resolver otherwise) to the
request object held in the table under `tableKey`, and answer `202` or a
streaming response carrying the request's key. -/
def buildResponse (st : SrvState) (tableKey : String) (req : PendingReq)
    (reply : Option String) (fresh : Nat) : SrvState × PostResp :=
  match reply with
  | some url =>
      let req' : PendingReq := { req with handlers := req.handlers ++ [Handler.webhook url] }
      ({ st with requests := setAssoc st.requests tableKey req' }, PostResp.accepted req.key)
  | none =>
      let req' : PendingReq := { req with handlers := req.handlers ++ [Handler.stream fresh] }
      ({ st with requests := setAssoc st.requests tableKey req' }, PostResp.streaming req.key)

/-- The `POST` of dispatcher.ts (enqueue).  The key is computed by the
caller; the coalescing lookup comes first in the source, then the cache
probe, then `queue.push` (modelled by inserting the fresh request before
`buildResponse` appends its handler).  `now` is the `Date.now()` of the
freshness check and `perfNow` the `performance.now()` stamped by `push`. -/
def POSTop (st : SrvState) (qname key href : String)
    (hs : Option (List (String × String))) (expire : Option Nat)
    (reply : Option String) (now perfNow fresh : Nat) : SrvState × PostResp :=
  match lookupAssoc st.requests key with
  | some req => buildResponse st key req reply fresh
  | none =>
      match lookupAssoc st.cache key with
      | some entry =>
          if serveFromCache expire entry.mtime now then (st, PostResp.cached key)
          else buildResponse st key ⟨key, href, hs, perfNow, none, qname, [], 0⟩ reply fresh
      | none => buildResponse st key ⟨key, href, hs, perfNow, none, qname, [], 0⟩ reply fresh

/-- JS `Number(request.headers.get('x-status'))`: a missing header is
`Number(null) = 0`. -/
def decodeXStatus : Option String → Option Nat
  | none => some 0
  | some s => jsNumber s

/-- Result of a delivery: the HTTP status answered, the state afterwards,
and each handler paired with the body it was notified with. -/
structure DeliverResult where
  status : Nat
  state : SrvState
  delivered : List (Handler × List Nat)
deriving DecidableEq

/-- The `handleRequestResponse` of dispatcher.ts (`POST /<key>`): absent key
answers `404` before anything is read or written; otherwise the body is
written to the cache iff the status is 200 (the file's mtime becoming the
delivery time), every handler is notified with the body, the delivering
client's `finished` is bumped, and the request leaves the table. -/
def handleRequestResponse (st : SrvState) (key : String) (xstatus : Option String)
    (body : List Nat) (hdrs : String → Option String) (now : Nat) : DeliverResult :=
  match lookupAssoc st.requests key with
  | none => ⟨404, st, []⟩
  | some req =>
      ⟨204,
       { requests := removeAssoc st.requests key,
         cache := if decodeXStatus xstatus = some 200
                  then setAssoc st.cache key ⟨now, body⟩ else st.cache,
         clients := bumpFinished st.clients (getClientId hdrs) now },
       req.handlers.map (fun h => (h, body))⟩

/-- The response of `GET /`: `400` when no client id is derivable, `204`
when nothing is eligible, or the dispatched request. -/
inductive NextResp where
  | badRequest
  | noContent
  | dispatched (key href : String) (headers : Option (List (String × String))) (total : Nat)
deriving DecidableEq

/-- State and response of a `GET /` dispatch. -/
structure DispatchResult where
  resp : NextResp
  store : List (String × String)
  reqs : List PendingReq
  clients : List (String × Client)
deriving DecidableEq

/-- The dispatch side effects on the selected request:
`next.startedAt && next.attempts++` (a set, nonzero `startedAt` is truthy)
then `next.startedAt = Date.now()`. -/
def markStarted (now : Nat) (k : String) (reqs : List PendingReq) : List PendingReq :=
  reqs.map (fun q =>
    if q.key = k then
      { q with
        attempts :=
          (match q.startedAt with
           | some t => if t ≠ 0 then q.attempts + 1 else q.attempts
           | none => q.attempts),
        startedAt := some now }
    else q)

/-- The `handleRequestNextInQueue` of dispatcher.ts (`GET /`). -/
def handleRequestNextInQueue (store : List (String × String)) (reqs : List PendingReq)
    (clients : List (String × Client)) (hdrs : String → Option String)
    (delayOf : String → Nat) (now : Nat) : DispatchResult :=
  match getClientId hdrs with
  | none => ⟨NextResp.badRequest, store, reqs, clients⟩
  | some cid =>
      let clients1 := touchClient clients cid now
      let r := getNextInQueue store cid reqs delayOf now
      match r.next with
      | none => ⟨NextResp.noContent, r.store, reqs, clients1⟩
      | some nx =>
          ⟨NextResp.dispatched nx.key nx.href nx.headers r.count,
           r.store, markStarted now nx.key reqs, bumpStarted clients1 cid⟩

/-- Trace of the `sendReply` retry loop in `handleRequestResponse`.  The
input list holds the statuses the webhook recipient returns to successive
POSTs; each trace element is (delay waited before this POST, the value of
the `attempts` counter).  A non-500 status ends the loop; on a 500 the loop
waits `attempts * 750` ms (`attempts && await …` skips the wait at 0, the
same zero delay) and recurses with `attempts + 1`. -/
def sendReplyTrace (pre : Nat) (attempts : Nat) : List Nat → List (Nat × Nat)
  | [] => []
  | s :: rest =>
      (pre, attempts) ::
        (if s = 500 then sendReplyTrace (attempts * 750) (attempts + 1) rest else [])

/-- Number of leading 500s in a status list. -/
def leading500 : List Nat → Nat
  | [] => 0
  | s :: rest => if s = 500 then leading500 rest + 1 else 0

/-- The routes an incoming request can take. -/
inductive RouteResult where
  | deliverResponse (key : String)
  | enqueue
  | getStatus
  | nextInQueue
  | notFound
deriving DecidableEq

/-- The `httpHandler` routing of dispatcher.ts: POST with a non-root path
delivers (the key is the path without its leading slash), POST `/`
enqueues; GET `/status` (with or without trailing slash) answers status and
every other GET is treated as a dispatch request; all other methods 404. -/
def httpRoute (method pathname : String) : RouteResult :=
  if method = "POST" then
    if pathname.length > 1 then RouteResult.deliverResponse (pathname.drop 1)
    else RouteResult.enqueue
  else if method = "GET" then
    if pathname = "/status" ∨ pathname = "/status/" then RouteResult.getStatus
    else RouteResult.nextInQueue
  else RouteResult.notFound

/-! Concrete sample inputs used by witnesses and counterexamples. -/

/-- A header map carrying only the correctly spelled `x-forwarded-for`. -/
def fwdOnlyHeaders : String → Option String :=
  fun n => if n = "x-forwarded-for" then some "203.0.113.7" else none

/-- A header map with no identifying header at all. -/
def noHdrs : String → Option String := fun _ => none

/-- The empty dispatcher state. -/
def stEmpty : SrvState := ⟨[], [], []⟩

/-- A pending request with one attached stream handler. -/
def reqC1 : PendingReq := ⟨"q/k", "https://q.example/x", none, 1, none, "q", [Handler.stream 7], 0⟩

/-- A state whose key `q/k` has both a pending request and a cache entry. -/
def stC1 : SrvState := ⟨[("q/k", reqC1)], [("q/k", ⟨50, [7, 7]⟩)], []⟩

/-- A pending request with no handler yet. -/
def reqC1w : PendingReq := ⟨"w/k", "https://w/x", none, 2, none, "w", [], 0⟩

/-- A state holding only `reqC1w`. -/
def stC1w : SrvState := ⟨[("w/k", reqC1w)], [], []⟩

/-- A pending request with a stream handler and a webhook handler. -/
def reqW5 : PendingReq :=
  ⟨"g/k", "https://g/x", none, 1, some 40, "g",
   [Handler.stream 0, Handler.webhook "https://hook.example/cb"], 0⟩

/-- A state holding only `reqW5`. -/
def stW5 : SrvState := ⟨[("g/k", reqW5)], [], []⟩

/-- A never-dispatched pending request. -/
def reqA : PendingReq := ⟨"q/a", "https://q/a", none, 5, none, "q", [], 0⟩

/-- A constant queue-delay table. -/
def delayK : String → Nat := fun _ => 3

/-! Helper lemmas about the association-list operations. -/

theorem lookupAssoc_setAssoc_self {α : Type} (l : List (String × α)) (k : String) (v : α) :
    lookupAssoc (setAssoc l k v) k = some v := by
  induction l with
  | nil => simp [setAssoc, lookupAssoc]
  | cons p rest ih =>
      obtain ⟨k', v'⟩ := p
      by_cases h : k' = k <;> simp [setAssoc, lookupAssoc, h, ih]

theorem lookupAssoc_removeAssoc_self {α : Type} (l : List (String × α)) (k : String) :
    lookupAssoc (removeAssoc l k) k = none := by
  induction l with
  | nil => simp [removeAssoc, lookupAssoc]
  | cons p rest ih =>
      obtain ⟨k', v'⟩ := p
      by_cases h : k' = k <;> simp [removeAssoc, lookupAssoc, h] at ih ⊢ <;> simpa [h] using ih

theorem lookupAssoc_mem {α : Type} {l : List (String × α)} {k : String} {v : α}
    (h : lookupAssoc l k = some v) : (k, v) ∈ l := by
  induction l with
  | nil => simp [lookupAssoc] at h
  | cons p rest ih =>
      obtain ⟨k', v'⟩ := p
      by_cases hk : k' = k
      · subst hk
        simp [lookupAssoc] at h
        simp [h]
      · simp [lookupAssoc, hk] at h
        exact List.mem_cons_of_mem _ (ih h)

/-! Claim theorems. -/

/-- C4 (code bug): the source reads the misspelled header `x-forwared-for`,
so a request identified only by the standard `x-forwarded-for` header yields
no client id and `GET /` answers 400 instead of dispatching. -/
theorem getClientId_forwarded_for_misspelled :
    fwdOnlyHeaders "x-forwarded-for" = some "203.0.113.7" ∧
    getClientId fwdOnlyHeaders = none ∧
    (handleRequestNextInQueue [] [] [] fwdOnlyHeaders delayK 0).resp = NextResp.badRequest :=
  ⟨rfl, rfl, rfl⟩

/-- C9 (counterexample): a GET to a path other than `/` or `/status` is
routed to the dispatch handler, not answered 404 as the claim states. -/
theorem httpRoute_get_nonroot_dispatches :
    httpRoute "GET" "/foo" = RouteResult.nextInQueue ∧
    httpRoute "GET" "/foo" ≠ RouteResult.notFound := by
  refine ⟨rfl, by decide⟩

/-- C9 (amended): the 404 branch is taken exactly for methods other than
POST and GET, and every GET whose path is not `/status` (or `/status/`) is
treated as a dispatch request. -/
theorem httpRoute_notFound_iff (method pathname : String) :
    (httpRoute method pathname = RouteResult.notFound ↔
      method ≠ "POST" ∧ method ≠ "GET") ∧
    (httpRoute "GET" pathname = RouteResult.nextInQueue ↔
      pathname ≠ "/status" ∧ pathname ≠ "/status/") := by
  constructor
  · unfold httpRoute
    split_ifs with h1 h2 h3 <;> simp_all
  · have hgp : ("GET" : String) ≠ "POST" := by decide
    by_cases h3 : pathname = "/status" ∨ pathname = "/status/"
    · rcases h3 with h3 | h3 <;> simp [httpRoute, hgp, h3]
    · push_neg at h3
      simp [httpRoute, hgp, h3.1, h3.2]

/-- C8 (counterexample): at the boundary `now = mtime + expire` the cache
entry is not served (the source serves only when `mtime + expire > now`),
although the claim says the boundary read is a hit. -/
theorem serveFromCache_boundary_stale :
    serveFromCache (some 1) 5 6 = false ∧ ¬ (6 > 5 + 1) := by
  refine ⟨rfl, by decide⟩

/-- C8 (amended): with a nonzero caller-supplied `expire`, the cached entry
is treated as a miss exactly when `mtime + expire ≤ now`; the boundary is a
miss. -/
theorem serveFromCache_miss_iff (e mtime now : Nat) (he : e ≠ 0) :
    serveFromCache (some e) mtime now = false ↔ mtime + e ≤ now := by
  simp [serveFromCache, he, Nat.not_lt]

theorem serveFromCache_miss_iff_witness :
    (1 : Nat) ≠ 0 ∧ serveFromCache (some 1) 5 6 = false :=
  ⟨by decide, (serveFromCache_miss_iff 1 5 6 (by decide)).mpr (by decide)⟩

/-- C7 (counterexample): with webhook responses 500 then 200 there are
exactly two POSTs, but the second follows immediately (`attempts` is 0 when
the first retry is scheduled), not 750 ms later as the claim states. -/
theorem sendReply_two_posts_immediate :
    (sendReplyTrace 0 0 [500, 200]).map Prod.fst = [0, 0] ∧
    (sendReplyTrace 0 0 [500, 200]).map Prod.fst ≠ [0, 750] := by
  refine ⟨rfl, by decide⟩

theorem sendReplyTrace_cons_500 (pre a : Nat) (rest : List Nat) :
    sendReplyTrace pre a (500 :: rest)
      = (pre, a) :: sendReplyTrace (a * 750) (a + 1) rest := by
  simp [sendReplyTrace]

theorem sendReplyTrace_cons_not500 {s : Nat} (hs : s ≠ 500) (pre a : Nat) (rest : List Nat) :
    sendReplyTrace pre a (s :: rest) = [(pre, a)] := by
  simp [sendReplyTrace, hs]

theorem sendReplyTrace_length (pre a : Nat) (ss : List Nat) :
    (sendReplyTrace pre a ss).length = min (leading500 ss + 1) ss.length := by
  induction ss generalizing pre a with
  | nil => simp [sendReplyTrace, leading500]
  | cons s rest ih =>
      by_cases h : s = 500
      · subst h
        rw [sendReplyTrace_cons_500, List.length_cons, ih (a * 750) (a + 1)]
        have hl : leading500 (500 :: rest) = leading500 rest + 1 := by
          simp [leading500]
        rw [hl, List.length_cons]
        omega
      · rw [sendReplyTrace_cons_not500 h]
        have hl : leading500 (s :: rest) = 0 := by
          simp [leading500, h]
        rw [hl]
        simp only [List.length_cons, List.length_singleton, List.length_nil]
        omega

theorem sendReplyTrace_delays (pre a : Nat) (ss : List Nat) :
    (sendReplyTrace pre a ss).map Prod.fst
      = (List.range (sendReplyTrace pre a ss).length).map
          (fun i => if i = 0 then pre else (a + (i - 1)) * 750) := by
  induction ss generalizing pre a with
  | nil => simp [sendReplyTrace]
  | cons s rest ih =>
      by_cases h : s = 500
      · subst h
        rw [sendReplyTrace_cons_500, List.map_cons, List.length_cons,
          List.range_succ_eq_map, List.map_cons, List.map_map]
        refine congrArg (List.cons pre) ?_
        rw [ih (a * 750) (a + 1)]
        refine List.map_congr_left ?_
        intro j _
        rcases j with _ | k
        · rfl
        · show (if (k + 1 : Nat) = 0 then a * 750 else (a + 1 + (k + 1 - 1)) * 750)
            = (if (k + 1 + 1 : Nat) = 0 then pre else (a + (k + 1 + 1 - 1)) * 750)
          rw [if_neg (by omega), if_neg (by omega)]
          congr 1
          omega
      · rw [sendReplyTrace_cons_not500 h]
        rfl

/-- C7 (amended): a webhook POST is retried exactly while the recipient
answers 500, with no attempt cap; the delay before the `(i+1)`-th POST is
`(i - 1) * 750` ms, so the first retry is immediate and later retries back
off linearly. -/
theorem sendReplyTrace_spec (ss : List Nat) :
    (sendReplyTrace 0 0 ss).length = min (leading500 ss + 1) ss.length ∧
    (sendReplyTrace 0 0 ss).map Prod.fst
      = (List.range (sendReplyTrace 0 0 ss).length).map (fun i => (i - 1) * 750) := by
  refine ⟨sendReplyTrace_length 0 0 ss, ?_⟩
  rw [sendReplyTrace_delays 0 0 ss]
  refine List.map_congr_left ?_
  intro i _
  by_cases hi : i = 0 <;> simp [hi]

/-- C6: a delivery whose key has no pending request answers 404 and changes
nothing: no cache write, no handler notified, request table and client
table untouched. -/
theorem handleRequestResponse_absent (st : SrvState) (key : String)
    (xstatus : Option String) (body : List Nat) (hdrs : String → Option String) (now : Nat)
    (h : lookupAssoc st.requests key = none) :
    handleRequestResponse st key xstatus body hdrs now = ⟨404, st, []⟩ := by
  simp [handleRequestResponse, h]

theorem handleRequestResponse_absent_witness :
    handleRequestResponse stEmpty "q/x" (some "200") [9] noHdrs 5 = ⟨404, stEmpty, []⟩ :=
  handleRequestResponse_absent stEmpty "q/x" (some "200") [9] noHdrs 5 rfl

/-- C5: a delivery whose key has a pending request answers 204; the body is
written to the cache (bytes equal to the delivered bytes) iff the `x-status`
header decodes to 200 and the cache is untouched otherwise; every handler is
notified with the body and the request leaves the table. -/
theorem handleRequestResponse_delivery (st : SrvState) (key : String)
    (xstatus : Option String) (body : List Nat) (hdrs : String → Option String)
    (now : Nat) (req : PendingReq)
    (h : lookupAssoc st.requests key = some req) :
    (handleRequestResponse st key xstatus body hdrs now).status = 204 ∧
    (decodeXStatus xstatus = some 200 →
      lookupAssoc (handleRequestResponse st key xstatus body hdrs now).state.cache key
        = some ⟨now, body⟩) ∧
    (decodeXStatus xstatus ≠ some 200 →
      (handleRequestResponse st key xstatus body hdrs now).state.cache = st.cache) ∧
    (handleRequestResponse st key xstatus body hdrs now).delivered
      = req.handlers.map (fun hd => (hd, body)) ∧
    lookupAssoc (handleRequestResponse st key xstatus body hdrs now).state.requests key
      = none := by
  have hr : handleRequestResponse st key xstatus body hdrs now
      = ⟨204,
         { requests := removeAssoc st.requests key,
           cache := if decodeXStatus xstatus = some 200
                    then setAssoc st.cache key ⟨now, body⟩ else st.cache,
           clients := bumpFinished st.clients (getClientId hdrs) now },
         req.handlers.map (fun hd => (hd, body))⟩ := by
    simp only [handleRequestResponse, h]
  rw [hr]
  refine ⟨rfl, ?_, ?_, rfl, ?_⟩
  · intro h200
    simp [h200, lookupAssoc_setAssoc_self]
  · intro h200
    simp [h200]
  · simp [lookupAssoc_removeAssoc_self]

theorem handleRequestResponse_delivery_witness :
    (handleRequestResponse stW5 "g/k" (some "200") [1, 2, 3] noHdrs 77).status = 204 ∧
    lookupAssoc (handleRequestResponse stW5 "g/k" (some "200") [1, 2, 3] noHdrs 77).state.cache "g/k"
      = some ⟨77, [1, 2, 3]⟩ ∧
    (handleRequestResponse stW5 "g/k" (some "200") [1, 2, 3] noHdrs 77).delivered
      = [(Handler.stream 0, [1, 2, 3]), (Handler.webhook "https://hook.example/cb", [1, 2, 3])] ∧
    lookupAssoc (handleRequestResponse stW5 "g/k" (some "200") [1, 2, 3] noHdrs 77).state.requests "g/k"
      = none := by
  have h := handleRequestResponse_delivery stW5 "g/k" (some "200") [1, 2, 3] noHdrs 77 reqW5 rfl
  exact ⟨h.1, h.2.1 (by decide), h.2.2.2.1, h.2.2.2.2⟩

/-- C1 (counterexample): on a state whose key has both a fresh cache entry
and a pending request, the enqueue joins the pending request (attaching a
handler) instead of streaming the cached body. -/
theorem POSTop_cache_ignored_when_pending :
    lookupAssoc stC1.cache "q/k" = some ⟨50, [7, 7]⟩ ∧
    serveFromCache none 50 100 = true ∧
    (POSTop stC1 "q" "q/k" "https://q.example/x" none none none 100 100 3).2
      ≠ PostResp.cached "q/k" ∧
    lookupAssoc (POSTop stC1 "q" "q/k" "https://q.example/x" none none none 100 100 3).1.requests "q/k"
      ≠ some reqC1 := by
  refine ⟨rfl, rfl, by decide, by decide⟩

/-- C1 (amended): the coalescing table is consulted before the cache — an
existing pending request is always joined (202 when a webhook reply was
supplied, a streaming response otherwise, one handler appended), and only
when no pending request exists is a fresh cache entry streamed directly,
leaving the state (hence every pending request's handler set) unchanged. -/
theorem POSTop_table_first (st : SrvState) (qname key href : String)
    (hs : Option (List (String × String))) (expire : Option Nat)
    (reply : Option String) (now perfNow fresh : Nat) :
    (∀ req, lookupAssoc st.requests key = some req →
      (POSTop st qname key href hs expire reply now perfNow fresh).2
        = (match reply with
           | some _ => PostResp.accepted req.key
           | none => PostResp.streaming req.key) ∧
      lookupAssoc (POSTop st qname key href hs expire reply now perfNow fresh).1.requests key
        = some { req with handlers := req.handlers ++
            [(match reply with
              | some url => Handler.webhook url
              | none => Handler.stream fresh)] }) ∧
    (lookupAssoc st.requests key = none →
      ∀ e, lookupAssoc st.cache key = some e →
        serveFromCache expire e.mtime now = true →
        POSTop st qname key href hs expire reply now perfNow fresh
          = (st, PostResp.cached key)) := by
  constructor
  · intro req hreq
    cases reply <;>
      simp [POSTop, hreq, buildResponse, lookupAssoc_setAssoc_self]
  · intro hnone e he hfresh
    simp [POSTop, hnone, he, hfresh]

theorem POSTop_table_first_witness :
    (POSTop stC1w "w" "w/k" "https://w/x" none none (some "https://hook/cb") 9 9 0).2
      = PostResp.accepted "w/k" ∧
    lookupAssoc (POSTop stC1w "w" "w/k" "https://w/x" none none (some "https://hook/cb") 9 9 0).1.requests "w/k"
      = some { reqC1w with handlers := [Handler.webhook "https://hook/cb"] } := by
  have h := (POSTop_table_first stC1w "w" "w/k" "https://w/x" none none
      (some "https://hook/cb") 9 9 0).1 reqC1w rfl
  exact ⟨h.1, h.2⟩

/-- C10: a `GET /` that selects no request leaves the caller's persisted
cooldown entry byte-for-byte unchanged — the scheduler writes the cooldown
store only when a request is actually dispatched. -/
theorem getNextInQueue_no_dispatch_keeps_store (store : List (String × String))
    (clientId : String) (reqs : List PendingReq) (delayOf : String → Nat) (now : Nat)
    (h : (getNextInQueue store clientId reqs delayOf now).next = none) :
    (getNextInQueue store clientId reqs delayOf now).store = store := by
  revert h
  unfold getNextInQueue
  cases hf : reqs.foldl
      (scanStep now (decodeTimersOpt (lookupAssoc store clientId) now)) (none, 0) with
  | mk o c =>
      cases o <;> simp [hf]

theorem getNextInQueue_no_dispatch_keeps_store_witness :
    (getNextInQueue [("c", "q,5")] "c" [] delayK 100).next = none ∧
    (getNextInQueue [("c", "q,5")] "c" [] delayK 100).store = [("c", "q,5")] :=
  ⟨rfl, getNextInQueue_no_dispatch_keeps_store [("c", "q,5")] "c" [] delayK 100 rfl⟩

/-! Lemmas about the decoded timers map and the scheduler scan, leading to
the C2 theorem. -/

theorem keptEntry_some {tok : List Char} {v : Nat} (h : jsNumberL tok = some v)
    (now : Nat) (qn : List Char) :
    keptEntry now qn tok = if v ≠ 0 ∧ now < v then [(String.mk qn, v)] else [] := by
  unfold keptEntry
  rw [h]

theorem keptEntry_none {tok : List Char} (h : jsNumberL tok = none)
    (now : Nat) (qn : List Char) :
    keptEntry now qn tok = [] := by
  unfold keptEntry
  rw [h]

theorem keptEntry_pos (now : Nat) (qn tok : List Char) :
    ∀ p ∈ keptEntry now qn tok, now < p.2 := by
  intro p hp
  rcases hj : jsNumberL tok with _ | v
  · rw [keptEntry_none hj] at hp
    simp at hp
  · rw [keptEntry_some hj] at hp
    by_cases hv : v ≠ 0 ∧ now < v
    · rw [if_pos hv] at hp
      rw [List.mem_singleton.mp hp]
      exact hv.2
    · rw [if_neg hv] at hp
      simp at hp

theorem flushTok_of_ne (now : Nat) (st : DecState) (h : st.queueName ≠ []) :
    flushTok now st = ⟨[], [], st.timers ++ keptEntry now st.queueName st.currentStr⟩ := by
  unfold flushTok
  rw [if_neg h]

theorem flushTok_pos (now : Nat) (st : DecState)
    (h : ∀ p ∈ st.timers, now < p.2) :
    ∀ p ∈ (flushTok now st).timers, now < p.2 := by
  intro p hp
  by_cases hq : st.queueName = []
  · unfold flushTok at hp
    rw [if_pos hq] at hp
    exact h p hp
  · rw [flushTok_of_ne now st hq] at hp
    rcases List.mem_append.mp hp with hm | hm
    · exact h p hm
    · exact keptEntry_pos now st.queueName st.currentStr p hm

theorem foldl_decStep_pos (now : Nat) :
    ∀ (l : List Char) (st : DecState),
      (∀ p ∈ st.timers, now < p.2) →
      ∀ p ∈ (l.foldl (decStep now) st).timers, now < p.2 := by
  intro l
  induction l with
  | nil => intro st h; exact h
  | cons c cs ih =>
      intro st h
      simp only [List.foldl_cons]
      refine ih _ ?_
      unfold decStep
      by_cases hc : c = ','
      · rw [if_pos hc]
        exact flushTok_pos now st h
      · rw [if_neg hc]
        exact h

theorem decodeTimers_pos (s : String) (now : Nat) :
    ∀ p ∈ decodeTimers s now, now < p.2 := by
  unfold decodeTimers
  by_cases hs : s = ""
  · rw [if_pos hs]
    intro p hp
    simp at hp
  · rw [if_neg hs]
    exact flushTok_pos now _ (foldl_decStep_pos now s.data ⟨[], [], []⟩ (by intro p hp; simp at hp))

theorem decodeTimersOpt_pos (os : Option String) (now : Nat) :
    ∀ p ∈ decodeTimersOpt os now, now < p.2 := by
  cases os with
  | none => intro p hp; simp [decodeTimersOpt] at hp
  | some s => exact decodeTimers_pos s now

theorem truthy_of_not_isNone {timers : List (String × Nat)} {q : String}
    (hpos : ∀ p ∈ timers, (0 : Nat) < p.2)
    (h : (lookupAssoc timers q).isNone = false) :
    truthyLookup timers q = true := by
  rcases hl : lookupAssoc timers q with _ | v
  · rw [hl] at h
    simp at h
  · unfold truthyLookup
    rw [hl]
    exact decide_eq_true (hpos _ (lookupAssoc_mem hl)).ne'

theorem truthy_false_of_isNone {timers : List (String × Nat)} {q : String}
    (h : (lookupAssoc timers q).isNone = true) :
    truthyLookup timers q = false := by
  rcases hl : lookupAssoc timers q with _ | v
  · unfold truthyLookup
    rw [hl]
  · rw [hl] at h
    simp at h

theorem scanStep_not_eligible {now : Nat} {timers : List (String × Nat)}
    (hpos : ∀ p ∈ timers, (0 : Nat) < p.2)
    (acc : Option PendingReq × Nat) {r : PendingReq}
    (he : isEligible now timers r = false) :
    scanStep now timers acc r = acc := by
  unfold scanStep
  by_cases hsk : skipTime now r = true
  · rw [if_pos hsk]
  · have hsk' : skipTime now r = false := by
      simpa using hsk
    unfold isEligible at he
    rw [hsk'] at he
    simp only [Bool.not_false, Bool.true_and] at he
    rw [if_neg (by simp [hsk']), if_pos (truthy_of_not_isNone hpos he)]

theorem scanStep_eligible_none {now : Nat} {timers : List (String × Nat)}
    {acc : Option PendingReq × Nat} {r : PendingReq}
    (he : isEligible now timers r = true) (hacc : acc.1 = none) :
    scanStep now timers acc r = (some r, acc.2 + 1) := by
  unfold isEligible at he
  rw [Bool.and_eq_true] at he
  have hsk : skipTime now r = false := by
    have := he.1
    simpa using this
  unfold scanStep
  rw [if_neg (by simp [hsk]), if_neg (by simp [truthy_false_of_isNone he.2]), hacc]

theorem scanStep_eligible_some {now : Nat} {timers : List (String × Nat)}
    {acc : Option PendingReq × Nat} {r o : PendingReq}
    (he : isEligible now timers r = true) (hacc : acc.1 = some o) :
    scanStep now timers acc r
      = if o.createdAt < r.createdAt then (some o, acc.2 + 1)
        else (some r, acc.2 + 1) := by
  unfold isEligible at he
  rw [Bool.and_eq_true] at he
  have hsk : skipTime now r = false := by
    have := he.1
    simpa using this
  unfold scanStep
  rw [if_neg (by simp [hsk]), if_neg (by simp [truthy_false_of_isNone he.2]), hacc]

theorem scan_foldl_inv (now : Nat) (timers : List (String × Nat))
    (hpos : ∀ p ∈ timers, (0 : Nat) < p.2) :
    ∀ (l seen : List PendingReq) (acc : Option PendingReq × Nat),
      acc.2 = (seen.filter (isEligible now timers)).length →
      (acc.1 = none → ∀ r ∈ seen, isEligible now timers r = false) →
      (∀ o, acc.1 = some o → o ∈ seen ∧ isEligible now timers o = true ∧
          ∀ r ∈ seen, isEligible now timers r = true → o.createdAt ≤ r.createdAt) →
      ((l.foldl (scanStep now timers) acc).2
          = ((seen ++ l).filter (isEligible now timers)).length ∧
        ((l.foldl (scanStep now timers) acc).1 = none →
          ∀ r ∈ seen ++ l, isEligible now timers r = false) ∧
        (∀ o, (l.foldl (scanStep now timers) acc).1 = some o →
          o ∈ seen ++ l ∧ isEligible now timers o = true ∧
          ∀ r ∈ seen ++ l, isEligible now timers r = true → o.createdAt ≤ r.createdAt)) := by
  intro l
  induction l with
  | nil =>
      intro seen acc h1 h2 h3
      simpa using ⟨h1, h2, h3⟩
  | cons r l ih =>
      intro seen acc h1 h2 h3
      have hmain :
          (((r :: l).foldl (scanStep now timers) acc).2
              = (((seen ++ [r]) ++ l).filter (isEligible now timers)).length ∧
            (((r :: l).foldl (scanStep now timers) acc).1 = none →
              ∀ r' ∈ (seen ++ [r]) ++ l, isEligible now timers r' = false) ∧
            (∀ o, ((r :: l).foldl (scanStep now timers) acc).1 = some o →
              o ∈ (seen ++ [r]) ++ l ∧ isEligible now timers o = true ∧
              ∀ r' ∈ (seen ++ [r]) ++ l, isEligible now timers r' = true →
                o.createdAt ≤ r'.createdAt)) := by
        simp only [List.foldl_cons]
        by_cases he : isEligible now timers r = true
        · rcases hacc : acc.1 with _ | o
          · rw [scanStep_eligible_none he hacc]
            refine ih (seen ++ [r]) (some r, acc.2 + 1) ?_ ?_ ?_
            · simp [List.filter_append, he, h1]
            · intro hcontra
              simp at hcontra
            · intro o' ho'
              have hor : o' = r := by
                simpa using ho'.symm
              subst hor
              refine ⟨by simp, he, ?_⟩
              intro r' hr' helig'
              rcases List.mem_append.mp hr' with hm | hm
              · exact absurd helig' (by simp [h2 hacc r' hm])
              · rw [List.mem_singleton.mp hm]
          · rw [scanStep_eligible_some he hacc]
            obtain ⟨hom, hoe, homin⟩ := h3 o hacc
            by_cases hlt : o.createdAt < r.createdAt
            · rw [if_pos hlt]
              refine ih (seen ++ [r]) (some o, acc.2 + 1) ?_ ?_ ?_
              · simp [List.filter_append, he, h1]
              · intro hcontra
                simp at hcontra
              · intro o' ho'
                have hor : o' = o := by
                  simpa using ho'.symm
                subst hor
                refine ⟨List.mem_append_left _ hom, hoe, ?_⟩
                intro r' hr' helig'
                rcases List.mem_append.mp hr' with hm | hm
                · exact homin r' hm helig'
                · rw [List.mem_singleton.mp hm]
                  exact Nat.le_of_lt hlt
            · rw [if_neg hlt]
              have hle : r.createdAt ≤ o.createdAt := Nat.le_of_not_lt hlt
              refine ih (seen ++ [r]) (some r, acc.2 + 1) ?_ ?_ ?_
              · simp [List.filter_append, he, h1]
              · intro hcontra
                simp at hcontra
              · intro o' ho'
                have hor : o' = r := by
                  simpa using ho'.symm
                subst hor
                refine ⟨by simp, he, ?_⟩
                intro r' hr' helig'
                rcases List.mem_append.mp hr' with hm | hm
                · exact Nat.le_trans hle (homin r' hm helig')
                · rw [List.mem_singleton.mp hm]
        · have he' : isEligible now timers r = false := by
            simpa using he
          rw [scanStep_not_eligible hpos acc he']
          refine ih (seen ++ [r]) acc ?_ ?_ ?_
          · simp [List.filter_append, he', h1]
          · intro hnone r' hr'
            rcases List.mem_append.mp hr' with hm | hm
            · exact h2 hnone r' hm
            · rw [List.mem_singleton.mp hm]
              exact he'
          · intro o ho
            obtain ⟨hom, hoe, homin⟩ := h3 o ho
            refine ⟨List.mem_append_left _ hom, hoe, ?_⟩
            intro r' hr' helig'
            rcases List.mem_append.mp hr' with hm | hm
            · exact homin r' hm helig'
            · rw [List.mem_singleton.mp hm] at helig' ⊢
              exact absurd helig' (by simp [he'])
      rw [List.append_assoc, List.singleton_append] at hmain
      exact hmain

theorem getNextInQueue_eq (store : List (String × String)) (clientId : String)
    (reqs : List PendingReq) (delayOf : String → Nat) (now : Nat) :
    getNextInQueue store clientId reqs delayOf now
      = match reqs.foldl
            (scanStep now (decodeTimersOpt (lookupAssoc store clientId) now)) (none, 0) with
        | (none, _) => ⟨none, 0, store⟩
        | (some o, count) =>
            ⟨some o, count,
             setAssoc store clientId
               (encodeTimers
                 (setAssoc (decodeTimersOpt (lookupAssoc store clientId) now)
                   o.queue (now + delayOf o.queue)))⟩ := rfl

/-- C2: `getNextInQueue` returns a request only if it is eligible (never
dispatched, or started at least `TIMEOUT` ago, with no unexpired cooldown
for its queue) and `createdAt`-minimal among all eligible requests, together
with the count of eligible requests observed; it returns none with count 0
exactly when no request is eligible. -/
theorem getNextInQueue_spec (store : List (String × String)) (clientId : String)
    (reqs : List PendingReq) (delayOf : String → Nat) (now : Nat) :
    (∀ r, (getNextInQueue store clientId reqs delayOf now).next = some r →
        r ∈ reqs ∧
        isEligible now (decodeTimersOpt (lookupAssoc store clientId) now) r = true ∧
        (∀ q ∈ reqs,
            isEligible now (decodeTimersOpt (lookupAssoc store clientId) now) q = true →
            r.createdAt ≤ q.createdAt) ∧
        (getNextInQueue store clientId reqs delayOf now).count
          = (reqs.filter
              (isEligible now (decodeTimersOpt (lookupAssoc store clientId) now))).length) ∧
    ((getNextInQueue store clientId reqs delayOf now).next = none ↔
        ∀ r ∈ reqs,
          isEligible now (decodeTimersOpt (lookupAssoc store clientId) now) r = false) ∧
    ((getNextInQueue store clientId reqs delayOf now).next = none →
        (getNextInQueue store clientId reqs delayOf now).count = 0) := by
  have hpos : ∀ p ∈ decodeTimersOpt (lookupAssoc store clientId) now, (0 : Nat) < p.2 :=
    fun p hp => Nat.lt_of_le_of_lt (Nat.zero_le now)
      (decodeTimersOpt_pos (lookupAssoc store clientId) now p hp)
  have hinv := scan_foldl_inv now (decodeTimersOpt (lookupAssoc store clientId) now) hpos
    reqs [] (none, 0) (by simp) (by intro _ r hr; simp at hr) (by intro o ho; simp at ho)
  rw [getNextInQueue_eq]
  cases hf : reqs.foldl
      (scanStep now (decodeTimersOpt (lookupAssoc store clientId) now)) (none, 0) with
  | mk o c =>
      rw [hf] at hinv
      simp only [List.nil_append] at hinv
      cases o with
      | none =>
          refine ⟨?_, ?_, ?_⟩
          · intro r hr
            simp at hr
          · exact ⟨fun _ => hinv.2.1 rfl, fun _ => rfl⟩
          · intro _
            rfl
      | some o =>
          obtain ⟨hom, hoe, homin⟩ := hinv.2.2 o rfl
          refine ⟨?_, ?_, ?_⟩
          · intro r hr
            have hr' : o = r := by
              simpa using hr
            subst hr'
            exact ⟨hom, hoe, homin, hinv.1⟩
          · constructor
            · intro hcontra
              simp at hcontra
            · intro hall
              exact absurd hoe (by simp [hall o hom])
          · intro hcontra
            simp at hcontra

theorem getNextInQueue_spec_witness :
    (getNextInQueue [] "c" [reqA] delayK 0).next = some reqA ∧
    reqA ∈ [reqA] ∧
    isEligible 0 (decodeTimersOpt (lookupAssoc [] "c") 0) reqA = true ∧
    (getNextInQueue [] "c" [reqA] delayK 0).count
      = ([reqA].filter (isEligible 0 (decodeTimersOpt (lookupAssoc [] "c") 0))).length := by
  have h := (getNextInQueue_spec [] "c" [reqA] delayK 0).1 reqA rfl
  exact ⟨rfl, h.1, h.2.1, h.2.2.2⟩

/-! Lemmas about decimal rendering and parsing, leading to the C3 codec
round-trip. -/

theorem digitChar_isDigit (d : Nat) : (digitChar d).isDigit = true := by
  unfold digitChar
  split_ifs <;> decide

theorem digitChar_toNat {d : Nat} (h : d < 10) : (digitChar d).toNat = 48 + d := by
  interval_cases d <;> decide

theorem digitsGo_ne_nil (f n : Nat) : digitsGo (f + 1) n ≠ [] := by
  unfold digitsGo
  split_ifs <;> simp

theorem digitsGo_all_digit : ∀ (fuel n : Nat), ∀ c ∈ digitsGo fuel n, c.isDigit = true := by
  intro fuel
  induction fuel with
  | zero =>
      intro n c hc
      simp [digitsGo] at hc
  | succ f ih =>
      intro n c hc
      unfold digitsGo at hc
      by_cases h : n < 10
      · rw [if_pos h] at hc
        rw [List.mem_singleton.mp hc]
        exact digitChar_isDigit n
      · rw [if_neg h] at hc
        rcases List.mem_cons.mp hc with h1 | h1
        · rw [h1]
          exact digitChar_isDigit _
        · exact ih _ c h1

theorem parse_digitsGo : ∀ (fuel n : Nat), n < fuel → ∀ (a : Nat),
    ((digitsGo fuel n).reverse).foldl (fun x c => x * 10 + (c.toNat - 48)) a
      = a * 10 ^ (digitsGo fuel n).length + n := by
  intro fuel
  induction fuel with
  | zero =>
      intro n h
      exact absurd h (Nat.not_lt_zero n)
  | succ f ih =>
      intro n h a
      unfold digitsGo
      by_cases h10 : n < 10
      · rw [if_pos h10]
        simp only [List.reverse_cons, List.reverse_nil, List.nil_append,
          List.foldl_cons, List.foldl_nil, List.length_cons, List.length_nil]
        rw [digitChar_toNat h10, pow_succ, pow_zero]
        omega
      · rw [if_neg h10]
        rw [List.reverse_cons, List.foldl_append]
        have hdiv : n / 10 < f := by
          have h1 : n / 10 < n := Nat.div_lt_self (by omega) (by omega)
          omega
        rw [ih (n / 10) hdiv a]
        simp only [List.foldl_cons, List.foldl_nil, List.length_cons]
        rw [digitChar_toNat (Nat.mod_lt n (by omega))]
        rw [pow_succ, ← Nat.mul_assoc]
        have hsub : 48 + n % 10 - 48 = n % 10 := by omega
        rw [hsub]
        generalize a * 10 ^ (digitsGo f (n / 10)).length = Q
        omega

theorem natToString_data (n : Nat) : (natToString n).data = (digitsGo (n + 1) n).reverse := rfl

theorem jsNumberL_natToString (n : Nat) : jsNumberL (natToString n).data = some n := by
  rw [natToString_data]
  unfold jsNumberL
  have hne : (digitsGo (n + 1) n).reverse ≠ [] := by
    intro hcontra
    exact digitsGo_ne_nil n n (by simpa using hcontra)
  rw [if_neg hne]
  have hall : ((digitsGo (n + 1) n).reverse).all Char.isDigit = true := by
    rw [List.all_eq_true]
    intro c hc
    exact digitsGo_all_digit (n + 1) n c (List.mem_reverse.mp hc)
  rw [if_pos hall]
  unfold parseDigits
  rw [parse_digitsGo (n + 1) n (Nat.lt_succ_self n) 0]
  simp

theorem natToString_no_comma (n : Nat) : ∀ c ∈ (natToString n).data, c ≠ ',' := by
  intro c hc
  rw [natToString_data] at hc
  have hdig := digitsGo_all_digit (n + 1) n c (List.mem_reverse.mp hc)
  intro hcomma
  rw [hcomma] at hdig
  exact absurd hdig (by decide)

theorem string_data_append (a b : String) : (a ++ b).data = a.data ++ b.data := by
  cases a
  cases b
  rfl

theorem string_mk_data (s : String) : String.mk s.data = s := rfl

theorem foldl_decStep_no_comma (now : Nat) :
    ∀ (l : List Char) (st : DecState), (∀ c ∈ l, c ≠ ',') →
      l.foldl (decStep now) st = ⟨st.queueName, st.currentStr ++ l, st.timers⟩ := by
  intro l
  induction l with
  | nil =>
      intro st _
      rw [List.foldl_nil, List.append_nil]
  | cons c cs ih =>
      intro st h
      have hc : c ≠ ',' := h c (List.mem_cons_self c cs)
      simp only [List.foldl_cons]
      rw [show decStep now st c = ⟨st.queueName, st.currentStr ++ [c], st.timers⟩ from by
        unfold decStep
        rw [if_neg hc]]
      rw [ih ⟨st.queueName, st.currentStr ++ [c], st.timers⟩
        (fun c' hc' => h c' (List.mem_cons_of_mem c hc'))]
      rw [List.append_assoc, List.singleton_append]

theorem run_entry (now : Nat) (name : String) (v : Nat) (acc : List (String × Nat))
    (hnc : ∀ c ∈ name.data, c ≠ ',') :
    ((name ++ "," ++ natToString v).data).foldl (decStep now) ⟨[], [], acc⟩
      = ⟨name.data, (natToString v).data, acc⟩ := by
  have hcd : ("," : String).data = [','] := rfl
  rw [string_data_append, string_data_append, hcd]
  rw [List.foldl_append, List.foldl_append]
  rw [foldl_decStep_no_comma now name.data ⟨[], [], acc⟩ hnc]
  have h1 : List.foldl (decStep now) ⟨[], [] ++ name.data, acc⟩ [',']
      = ⟨name.data, [], acc⟩ := by
    rw [List.foldl_cons, List.foldl_nil]
    rw [show decStep now ⟨[], [] ++ name.data, acc⟩ ','
        = flushTok now ⟨[], [] ++ name.data, acc⟩ from by
      unfold decStep
      rw [if_pos rfl]]
    unfold flushTok
    rw [if_pos rfl]
    simp
  rw [h1]
  rw [foldl_decStep_no_comma now (natToString v).data ⟨name.data, [], acc⟩
    (natToString_no_comma v)]
  simp

theorem flush_entry (now : Nat) (name : String) (v : Nat) (acc : List (String × Nat))
    (hne : name ≠ "") :
    flushTok now ⟨name.data, (natToString v).data, acc⟩
      = ⟨[], [], if v ≠ 0 ∧ now < v then acc ++ [(name, v)] else acc⟩ := by
  have hq : name.data ≠ [] := by
    intro hd
    apply hne
    have hmk : name = String.mk name.data := (string_mk_data name).symm
    rw [hmk, hd]
  rw [flushTok_of_ne now ⟨name.data, (natToString v).data, acc⟩ hq]
  show (⟨[], [], acc ++ keptEntry now name.data (natToString v).data⟩ : DecState)
      = ⟨[], [], if v ≠ 0 ∧ now < v then acc ++ [(name, v)] else acc⟩
  rw [keptEntry_some (jsNumberL_natToString v) now name.data]
  by_cases hv : v ≠ 0 ∧ now < v
  · rw [if_pos hv, if_pos hv, string_mk_data]
  · rw [if_neg hv, if_neg hv, List.append_nil]

theorem decode_encode_aux (now : Nat) :
    ∀ (t : List (String × Nat)) (acc : List (String × Nat)),
      t ≠ [] →
      (∀ p ∈ t, p.1 ≠ "") →
      (∀ p ∈ t, ∀ c ∈ p.1.data, c ≠ ',') →
      (flushTok now ((encodeTimers t).data.foldl (decStep now) ⟨[], [], acc⟩)).timers
        = acc ++ t.filter (fun p => decide (p.2 ≠ 0 ∧ now < p.2)) := by
  intro t
  induction t with
  | nil =>
      intro acc h
      exact absurd rfl h
  | cons p rest ih =>
      intro acc _ hne hnc
      obtain ⟨n, v⟩ := p
      have hn1 : n ≠ "" := hne (n, v) (List.mem_cons_self _ _)
      have hnc1 : ∀ c ∈ n.data, c ≠ ',' := hnc (n, v) (List.mem_cons_self _ _)
      cases rest with
      | nil =>
          rw [show encodeTimers [(n, v)] = n ++ "," ++ natToString v from rfl]
          rw [run_entry now n v acc hnc1]
          rw [flush_entry now n v acc hn1]
          by_cases hv : v ≠ 0 ∧ now < v
          · simp [hv, List.filter_cons]
          · simp [hv, List.filter_cons]
      | cons q rest' =>
          have hcd : ("," : String).data = [','] := rfl
          rw [show encodeTimers ((n, v) :: q :: rest')
              = n ++ "," ++ natToString v ++ "," ++ encodeTimers (q :: rest') from rfl]
          rw [string_data_append, string_data_append, hcd]
          rw [List.foldl_append, List.foldl_append]
          rw [run_entry now n v acc hnc1]
          have h2 : List.foldl (decStep now) ⟨n.data, (natToString v).data, acc⟩ [',']
              = ⟨[], [], if v ≠ 0 ∧ now < v then acc ++ [(n, v)] else acc⟩ := by
            rw [List.foldl_cons, List.foldl_nil]
            rw [show decStep now ⟨n.data, (natToString v).data, acc⟩ ','
                = flushTok now ⟨n.data, (natToString v).data, acc⟩ from by
              unfold decStep
              rw [if_pos rfl]]
            exact flush_entry now n v acc hn1
          rw [h2]
          rw [ih (if v ≠ 0 ∧ now < v then acc ++ [(n, v)] else acc) (by simp)
              (fun p hp => hne p (List.mem_cons_of_mem _ hp))
              (fun p hp => hnc p (List.mem_cons_of_mem _ hp))]
          rw [List.filter_cons]
          by_cases hv : v ≠ 0 ∧ now < v
          · simp [hv, List.filter_cons, List.append_assoc]
          · simp [hv, List.filter_cons]

theorem encodeTimers_cons_ne_empty (n : String) (v : Nat) (rest : List (String × Nat)) :
    encodeTimers ((n, v) :: rest) ≠ "" := by
  intro h
  have hcd : ("," : String).data = [','] := rfl
  have hd : (encodeTimers ((n, v) :: rest)).data = [] := by
    rw [h]
  cases rest with
  | nil =>
      rw [show encodeTimers [(n, v)] = n ++ "," ++ natToString v from rfl,
        string_data_append, string_data_append, hcd] at hd
      simp at hd
  | cons q rest' =>
      rw [show encodeTimers ((n, v) :: q :: rest')
          = n ++ "," ++ natToString v ++ "," ++ encodeTimers (q :: rest') from rfl,
        string_data_append, string_data_append, string_data_append,
        string_data_append, hcd] at hd
      simp at hd

/-- C3 (amended): for timer maps whose queue names are nonempty and
comma-free, decoding the encoding at time `now` yields exactly the entries
whose value is nonzero and greater than `now`, bit-exactly and in order;
the empty map encodes to the empty string. -/
theorem encode_decode_timers (t : List (String × Nat)) (now : Nat)
    (hne : ∀ p ∈ t, p.1 ≠ "")
    (hnc : ∀ p ∈ t, ∀ c ∈ p.1.data, c ≠ ',')
    (hnd : (t.map Prod.fst).Nodup) :
    decodeTimers (encodeTimers t) now
      = t.filter (fun p => decide (p.2 ≠ 0 ∧ now < p.2)) ∧
    encodeTimers ([] : List (String × Nat)) = "" := by
  refine ⟨?_, rfl⟩
  cases t with
  | nil => rfl
  | cons p rest =>
      obtain ⟨n, v⟩ := p
      unfold decodeTimers
      rw [if_neg (encodeTimers_cons_ne_empty n v rest)]
      have h := decode_encode_aux now ((n, v) :: rest) [] (by simp) hne hnc
      simpa using h

/-- C3 (counterexample): an entry with the empty queue name — a name with no
comma — is lost by the round trip even though its value is a future nonzero
instant, so the claim as stated fails at `t = [("", 5)]`, `now = 0`. -/
theorem decode_encode_empty_name :
    decodeTimers (encodeTimers [("", 5)]) 0
      ≠ [("", 5)].filter (fun p => decide (p.2 ≠ 0 ∧ 0 < p.2)) := by
  decide

theorem encode_decode_timers_witness :
    decodeTimers (encodeTimers [("a", 5), ("b", 2)]) 3 = [("a", 5)] := by
  have h := (encode_decode_timers [("a", 5), ("b", 2)] 3 (by decide) (by decide) (by decide)).1
  rw [h]
  decide

end Dispatch
